import Mathlib

/-!
Shallow embedding of the WindP document viewer core (src/src/state.rs,
src/src/ui/mod.rs, src/src/pdf/render.rs) and proofs about the claims of
its specification. Floating point scalars are modelled over the rationals;
the u16 page counters are modelled as naturals with explicit wrapping
(mod 2 ^ 16) where the source can overflow. GPU resources are modelled by
their CPU-visible contents: the page texture by its bitmap and the overlay
texture by the CPU byte buffer that mirrors it.
-/

namespace WindP

/-- Tool enum from src/src/ui/mod.rs lines 5-9. -/
inductive Tool
  | None
  | Pan
  | Highlighter
deriving DecidableEq, Repr

/-- Toolbar toggle applied by the pencil button in UiState.hit_test
(src/src/ui/mod.rs lines 69-72): Highlighter maps to Pan and every other
variant maps to Highlighter. -/
def toggleTool : Tool → Tool
  | Tool.Highlighter => Tool.Pan
  | _ => Tool.Highlighter

/-- UiState from src/src/ui/mod.rs lines 11-23, GPU icon textures omitted
(out of the modelled core). Layout scalars are modelled as rationals. -/
structure UiState where
  active_tool : Tool
  is_carousel_open : Bool
  bottom_bar_height : ℚ
  side_panel_width : ℚ
deriving DecidableEq, Repr

/-- UiState.new (src/src/ui/mod.rs lines 26-46): initial tool Pan, carousel
closed, bar height 80, panel width 200. -/
def UiState.new : UiState :=
  { active_tool := Tool.Pan
    is_carousel_open := false
    bottom_bar_height := 80
    side_panel_width := 200 }

/-- UiState.hit_test (src/src/ui/mod.rs lines 50-91). Input x, y are NDC
coordinates in [-1, 1]; they are converted back to screen pixels. Returns
the updated UiState together with the consumed flag the source returns.
The pencil-button branch inlines the same match as toggleTool. -/
def UiState.hit_test (ui : UiState) (x y win_width win_height : ℚ) :
    UiState × Bool :=
  let px := (x + 1) * 0.5 * win_width
  let py := (1 - y) * 0.5 * win_height
  if py > win_height - ui.bottom_bar_height then
    let center := win_width / 2
    if px > center - 100 ∧ px < center - 60 then
      ({ ui with is_carousel_open := !ui.is_carousel_open }, true)
    else if px > center - 20 ∧ px < center + 20 then
      ({ ui with active_tool := toggleTool ui.active_tool }, true)
    else if px > center + 60 ∧ px < center + 100 then
      (ui, true)
    else
      (ui, true)
  else if ui.is_carousel_open ∧ px < ui.side_panel_width then
    (ui, true)
  else
    (ui, false)

/-- PageBitmap from src/src/pdf/render.rs lines 4-8: pixel dimensions plus
the raw bytes, modelled as a byte map indexed by offset. -/
structure PageBitmap where
  width : ℕ
  height : ℕ
  data : ℕ → ℕ

/-- The overlay_buffer field of State (a Vec of bytes): its length together
with the byte at each index. Indexed stores keep the length unchanged, as
Vec indexing does. -/
structure OverlayBuffer where
  len : ℕ
  data : ℕ → ℕ

/-- Viewer state from src/src/state.rs lines 36-70, restricted to the
CPU-visible core: GPU pipeline objects, bind groups and buffers are
omitted; the page texture is modelled by the bitmap last uploaded to it. -/
structure State where
  page_tex : PageBitmap
  overlay_buffer : OverlayBuffer
  page_width : ℕ
  page_height : ℕ
  zoom : ℚ
  pan : ℚ × ℚ
  ui : UiState
  document : Bool
  current_page : ℕ
  total_pages : ℕ
  win_width : ℕ
  win_height : ℕ

/-- State.load_page (src/src/state.rs lines 186-212). The call to
render_page_to_memory on the pdfium document is modelled by the oracle
argument render; Err becomes none. On success the page texture receives
the bitmap, every byte of the overlay buffer is set to 0 (Vec fill, which
keeps the length), and current_page and the page dimensions are updated.
On failure, or with no document, nothing changes. -/
def State.load_page (s : State) (render : ℕ → Option PageBitmap)
    (page_idx : ℕ) : State :=
  if s.document then
    match render page_idx with
    | some bitmap =>
        { s with
          page_tex := bitmap
          overlay_buffer := { s.overlay_buffer with data := fun _ => 0 }
          current_page := page_idx
          page_width := bitmap.width
          page_height := bitmap.height }
    | none => s
  else s

/-- ArrowRight handling (src/src/state.rs lines 317-322). The source guard
compares the u16 current_page against total_pages - 1 with u16 arithmetic,
which wraps modulo 2 ^ 16 when total_pages = 0 (release semantics). -/
def State.arrowRight (s : State) (render : ℕ → Option PageBitmap) : State :=
  if s.current_page < (s.total_pages + 65535) % 65536 then
    s.load_page render (s.current_page + 1)
  else s

/-- ArrowLeft handling (src/src/state.rs lines 323-328). -/
def State.arrowLeft (s : State) (render : ℕ → Option PageBitmap) : State :=
  if 0 < s.current_page then
    s.load_page render (s.current_page - 1)
  else s

/-- MouseWheel zoom clamp, the f32 clamp of src/src/state.rs line 312. -/
def clampQ (x lo hi : ℚ) : ℚ :=
  if x < lo then lo else if x > hi then hi else x

/-- One wheel update (src/src/state.rs lines 310-313): the already scaled
scroll amount is added to zoom and the sum is clamped to [0.1, 10.0]. -/
def zoomStep (zoom scroll : ℚ) : ℚ :=
  clampQ (zoom + scroll) 0.1 10

/-- Line-delta wheel scaling from src/src/state.rs line 311. -/
def lineDeltaScroll (y : ℚ) : ℚ := y * 0.1

/-- Pixel-delta wheel scaling from src/src/state.rs line 311. -/
def pixelDeltaScroll (y : ℚ) : ℚ := y * 0.001

/-- CursorMoved normalisation (src/src/state.rs lines 287-288): screen
pixels to NDC, with the vertical axis inverted. -/
def screenToNdc (px py w h : ℚ) : ℚ × ℚ :=
  ((px / w) * 2 - 1, -((py / h) * 2 - 1))

/-- Aspect ratio of the viewport, width over height (src/src/state.rs
lines 217 and 338). -/
def aspectOf (w h : ℕ) : ℚ := (w : ℚ) / (h : ℚ)

/-- Inverse camera transform used by paint_overlay (src/src/state.rs lines
219-220): remove the pan translation and divide by the per-axis scale. -/
def ndcToCamera (x y zoom panx pany aspect : ℚ) : ℚ × ℚ :=
  ((x - panx) / zoom, (y - pany) / (zoom * aspect))

/-- Camera space to UV (src/src/state.rs lines 226-227). -/
def cameraToUv (xc yc : ℚ) : ℚ × ℚ :=
  ((xc + 1) * 0.5, (1 - yc) * 0.5)

/-- Scale of the camera uniform as computed by State.update
(src/src/state.rs line 339). -/
def cameraScale (zoom aspect : ℚ) : ℚ × ℚ := (zoom, zoom * aspect)

/-- Modelled from the spec: the shader file src/assets/shaders/shader.wgsl
is not under src, so the vertex-stage application of the camera uniform is
taken from the spec, which states that the stage applies the uniform scale
per axis and then the translation, with scale = (zoom, zoom * aspect) and
translation = pan as computed in State.update. -/
def forwardCamera (xc yc zoom panx pany aspect : ℚ) : ℚ × ℚ :=
  (xc * (cameraScale zoom aspect).1 + panx,
   yc * (cameraScale zoom aspect).2 + pany)

/-- Truncation toward zero, the behaviour of a Rust float-to-i32 cast for
in-range values (src/src/state.rs lines 230-231). -/
def ratTrunc (q : ℚ) : ℤ :=
  if 0 ≤ q then ⌊q⌋ else -⌊-q⌋

/-- UV to texel (src/src/state.rs lines 230-231): multiply by the page
dimensions and truncate, as the i32 cast does. -/
def uvToTexel (u v : ℚ) (w h : ℕ) : ℤ × ℤ :=
  (ratTrunc (u * (w : ℚ)), ratTrunc (v * (h : ℚ)))

/-- The brush radius, the radius local of src/src/state.rs line 232. -/
def brushRadius : ℤ := 5

/-- One pixel store of the disc loop body (src/src/state.rs lines 243-248):
the four bytes at index (py * width + px) * 4 receive 255, 255, 0, 100.
The length of the Vec is untouched by indexed stores. -/
def writePixel (w px py : ℕ) (buf : OverlayBuffer) : OverlayBuffer :=
  let idx := (py * w + px) * 4
  { buf with data := fun i =>
      if i = idx then 255
      else if i = idx + 1 then 255
      else if i = idx + 2 then 0
      else if i = idx + 3 then 100
      else buf.data i }

/-- The (dx, dy) offsets visited by the nested loops of src/src/state.rs
lines 237-238, dy outer, each axis running from -radius to radius. -/
def discOffsets (radius : ℕ) : List (ℤ × ℤ) :=
  (List.range (2 * radius + 1)).flatMap fun (dy : ℕ) =>
    (List.range (2 * radius + 1)).map fun (dx : ℕ) =>
      ((dx : ℤ) - (radius : ℤ), (dy : ℤ) - (radius : ℤ))

/-- Loop body of the disc stamp (src/src/state.rs lines 239-251): an offset
inside the disc whose target pixel is inside the buffer bounds stores the
highlight colour at that pixel; everything else leaves the buffer alone. -/
def paintStep (w h : ℕ) (tx ty : ℤ) (buf : OverlayBuffer) (o : ℤ × ℤ) :
    OverlayBuffer :=
  if o.1 * o.1 + o.2 * o.2 ≤ brushRadius * brushRadius then
    let px := tx + o.1
    let py := ty + o.2
    if 0 ≤ px ∧ px < (w : ℤ) ∧ 0 ≤ py ∧ py < (h : ℤ) then
      writePixel w px.toNat py.toNat buf
    else buf
  else buf

/-- The full disc stamp at texel (tx, ty): the two nested loops of
src/src/state.rs lines 237-253 as a fold over the visited offsets. -/
def paintDisc (w h : ℕ) (tx ty : ℤ) (buf : OverlayBuffer) : OverlayBuffer :=
  (discOffsets 5).foldl (paintStep w h tx ty) buf

/-- The UV coordinates paint_overlay computes from an NDC point
(src/src/state.rs lines 217-227). -/
def State.paintUV (s : State) (ndc_x ndc_y : ℚ) : ℚ × ℚ :=
  let aspect := aspectOf s.win_width s.win_height
  let cam := ndcToCamera ndc_x ndc_y s.zoom s.pan.1 s.pan.2 aspect
  cameraToUv cam.1 cam.2

/-- State.paint_overlay (src/src/state.rs lines 214-265). The GPU texture
re-upload guarded by the modified flag has no CPU-visible effect beyond
the buffer itself and is omitted. -/
def State.paint_overlay (s : State) (ndc_x ndc_y : ℚ) : State :=
  let uv := s.paintUV ndc_x ndc_y
  if 0 ≤ uv.1 ∧ uv.1 ≤ 1 ∧ 0 ≤ uv.2 ∧ uv.2 ≤ 1 then
    let t := uvToTexel uv.1 uv.2 s.page_width s.page_height
    { s with overlay_buffer :=
        paintDisc s.page_width s.page_height t.1 t.2 s.overlay_buffer }
  else s

/-- Byte k (0 to 3) of the highlight colour stored by writePixel. -/
def colorByte (k : ℕ) : ℕ :=
  if k = 0 then 255 else if k = 1 then 255 else if k = 2 then 0 else 100

/-- The offset o of the disc stamp at texel (tx, ty) on a w by h buffer
stores a byte at index i: o lies in the disc, its target pixel is in
bounds, and i is one of the four bytes of that pixel. -/
def writesAt (w h : ℕ) (tx ty : ℤ) (o : ℤ × ℤ) (i : ℕ) : Prop :=
  o.1 * o.1 + o.2 * o.2 ≤ brushRadius * brushRadius ∧
  0 ≤ tx + o.1 ∧ tx + o.1 < (w : ℤ) ∧ 0 ≤ ty + o.2 ∧ ty + o.2 < (h : ℤ) ∧
  ((ty + o.2).toNat * w + (tx + o.1).toNat) * 4 ≤ i ∧
  i < ((ty + o.2).toNat * w + (tx + o.1).toNat) * 4 + 4

instance (w h : ℕ) (tx ty : ℤ) (o : ℤ × ℤ) (i : ℕ) :
    Decidable (writesAt w h tx ty o i) := by
  unfold writesAt; infer_instance

/-- A single loop iteration changes exactly the bytes writesAt describes,
and stores colorByte of the byte position within the pixel. -/
lemma paintStep_data (w h : ℕ) (tx ty : ℤ) (buf : OverlayBuffer)
    (o : ℤ × ℤ) (i : ℕ) :
    (paintStep w h tx ty buf o).data i =
      if writesAt w h tx ty o i then colorByte (i % 4) else buf.data i := by
  unfold paintStep
  by_cases hd : o.1 * o.1 + o.2 * o.2 ≤ brushRadius * brushRadius
  · by_cases hb : 0 ≤ tx + o.1 ∧ tx + o.1 < (w : ℤ) ∧ 0 ≤ ty + o.2 ∧
        ty + o.2 < (h : ℤ)
    · rw [if_pos hd]
      simp only [if_pos hb, writePixel]
      obtain ⟨hb1, hb2, hb3, hb4⟩ := hb
      set m := (ty + o.2).toNat * w + (tx + o.1).toNat with hm
      have hW : ∀ j : ℕ, writesAt w h tx ty o j ↔ m * 4 ≤ j ∧ j < m * 4 + 4 := by
        intro j
        unfold writesAt
        constructor
        · rintro ⟨-, -, -, -, -, hlo, hhi⟩; exact ⟨hlo, hhi⟩
        · rintro ⟨hlo, hhi⟩; exact ⟨hd, hb1, hb2, hb3, hb4, hlo, hhi⟩
      by_cases h0 : i = m * 4
      · rw [if_pos h0, if_pos ((hW i).2 (by omega))]
        have : i % 4 = 0 := by omega
        simp [colorByte, this]
      · rw [if_neg h0]
        by_cases h1 : i = m * 4 + 1
        · rw [if_pos h1, if_pos ((hW i).2 (by omega))]
          have : i % 4 = 1 := by omega
          simp [colorByte, this]
        · rw [if_neg h1]
          by_cases h2 : i = m * 4 + 2
          · rw [if_pos h2, if_pos ((hW i).2 (by omega))]
            have : i % 4 = 2 := by omega
            simp [colorByte, this]
          · rw [if_neg h2]
            by_cases h3 : i = m * 4 + 3
            · rw [if_pos h3, if_pos ((hW i).2 (by omega))]
              have : i % 4 = 3 := by omega
              simp [colorByte, this]
            · rw [if_neg h3, if_neg]
              intro hWi
              have := (hW i).1 hWi
              omega
    · rw [if_pos hd]
      simp only [if_neg hb]
      rw [if_neg]
      rintro ⟨-, h1, h2, h3, h4, -, -⟩
      exact hb ⟨h1, h2, h3, h4⟩
  · rw [if_neg hd, if_neg]
    rintro ⟨h1, -⟩
    exact hd h1

/-- The fold over all loop offsets leaves a byte at the highlight colour
iff some visited offset writes it, and untouched otherwise. -/
lemma paintFold_data (w h : ℕ) (tx ty : ℤ) (l : List (ℤ × ℤ))
    (buf : OverlayBuffer) (i : ℕ) :
    ((l.foldl (paintStep w h tx ty) buf).data i) =
      if ∃ o ∈ l, writesAt w h tx ty o i then colorByte (i % 4)
      else buf.data i := by
  induction l generalizing buf with
  | nil => simp
  | cons o t ih =>
      rw [List.foldl_cons, ih, paintStep_data]
      by_cases ht : ∃ p ∈ t, writesAt w h tx ty p i
      · rw [if_pos ht, if_pos]
        obtain ⟨p, hp, hw⟩ := ht
        exact ⟨p, List.mem_cons_of_mem o hp, hw⟩
      · rw [if_neg ht]
        by_cases ho : writesAt w h tx ty o i
        · rw [if_pos ho, if_pos ⟨o, List.mem_cons_self o t, ho⟩]
        · rw [if_neg ho, if_neg]
          rintro ⟨p, hp, hw⟩
          rcases List.mem_cons.1 hp with rfl | hpt
          · exact ho hw
          · exact ht ⟨p, hpt, hw⟩

/-- The loop never changes the length of the overlay buffer. -/
lemma paintFold_len (w h : ℕ) (tx ty : ℤ) (l : List (ℤ × ℤ))
    (buf : OverlayBuffer) :
    (l.foldl (paintStep w h tx ty) buf).len = buf.len := by
  induction l generalizing buf with
  | nil => rfl
  | cons o t ih =>
      rw [List.foldl_cons, ih]
      simp only [paintStep, writePixel]
      split
      · split <;> rfl
      · rfl

/-- Membership in the visited offset list is exactly the square of side
2 * radius + 1 around the centre. -/
lemma mem_discOffsets (o : ℤ × ℤ) :
    o ∈ discOffsets 5 ↔ -5 ≤ o.1 ∧ o.1 ≤ 5 ∧ -5 ≤ o.2 ∧ o.2 ≤ 5 := by
  obtain ⟨a, b⟩ := o
  constructor
  · intro hmem
    obtain ⟨dy, hdy, hmap⟩ := List.mem_flatMap.1 hmem
    obtain ⟨dx, hdx, heq⟩ := List.mem_map.1 hmap
    rw [Prod.mk.injEq] at heq
    rw [List.mem_range] at hdy hdx
    obtain ⟨h1, h2⟩ := heq
    refine ⟨?_, ?_, ?_, ?_⟩ <;> omega
  · rintro ⟨h1, h2, h3, h4⟩
    refine List.mem_flatMap.2 ⟨(b + 5).toNat, List.mem_range.2 (by omega),
      List.mem_map.2 ⟨(a + 5).toNat, List.mem_range.2 (by omega), ?_⟩⟩
    rw [Prod.mk.injEq]
    constructor <;> omega

/-- Row-major pixel bases are injective when the column is in range. -/
lemma base_inj {w a b c d : ℕ} (hb : b < w) (hd : d < w)
    (h : a * w + b = c * w + d) : a = c ∧ b = d := by
  have hw : 0 < w := Nat.pos_of_ne_zero (by rintro rfl; omega)
  have h1 : (a * w + b) % w = b := by
    rw [Nat.mul_comm, Nat.mul_add_mod, Nat.mod_eq_of_lt hb]
  have h2 : (c * w + d) % w = d := by
    rw [Nat.mul_comm, Nat.mul_add_mod, Nat.mod_eq_of_lt hd]
  have hbd : b = d := by rw [← h1, ← h2, h]
  subst hbd
  have : a * w = c * w := by omega
  exact ⟨Nat.eq_of_mul_eq_mul_right hw this, rfl⟩

/-- For an in-bounds target pixel at offset (dx, dy) from the stamp centre,
some visited offset writes its bytes iff (dx, dy) lies in the disc. -/
lemma exists_writesAt_iff (w h : ℕ) (tx ty dx dy : ℤ) (k : ℕ) (hk : k < 4)
    (hx0 : 0 ≤ tx + dx) (hx1 : tx + dx < (w : ℤ))
    (hy0 : 0 ≤ ty + dy) (hy1 : ty + dy < (h : ℤ)) :
    (∃ o ∈ discOffsets 5, writesAt w h tx ty o
        (((ty + dy).toNat * w + (tx + dx).toNat) * 4 + k)) ↔
      dx * dx + dy * dy ≤ 25 := by
  constructor
  · rintro ⟨o, hmem, hw⟩
    obtain ⟨hdisc, ho1, ho2, ho3, ho4, hlo, hhi⟩ := hw
    have hmeq : (ty + o.2).toNat * w + (tx + o.1).toNat =
        (ty + dy).toNat * w + (tx + dx).toNat := by omega
    have hcw : (tx + o.1).toNat < w := by omega
    have hdw : (tx + dx).toNat < w := by omega
    obtain ⟨hrow, hcol⟩ := base_inj hcw hdw hmeq
    have hox : o.1 = dx := by omega
    have hoy : o.2 = dy := by omega
    rw [hox, hoy] at hdisc
    simpa [brushRadius] using hdisc
  · intro hdisc
    have hmem : ((dx, dy) : ℤ × ℤ) ∈ discOffsets 5 := by
      rw [mem_discOffsets]
      dsimp only
      refine ⟨?_, ?_, ?_, ?_⟩ <;>
        nlinarith [mul_self_nonneg (dx + 5), mul_self_nonneg (dx - 5),
          mul_self_nonneg (dy + 5), mul_self_nonneg (dy - 5),
          mul_self_nonneg dx, mul_self_nonneg dy]
    refine ⟨(dx, dy), hmem, ?_⟩
    unfold writesAt
    dsimp only
    exact ⟨by simpa [brushRadius] using hdisc, hx0, hx1, hy0, hy1,
      by omega, by omega⟩

/-- A 1 by 1 all-zero bitmap used as a concrete evaluation fixture. -/
def zeroBitmap : PageBitmap := ⟨1, 1, fun _ => 0⟩

/-- Concrete viewer state with no document loaded, a 100 by 100 viewport,
zoom 1 and pan (0, 0), used to evaluate theorems at concrete inputs. -/
def testState : State :=
  { page_tex := zeroBitmap
    overlay_buffer := ⟨4, fun _ => 0⟩
    page_width := 1
    page_height := 1
    zoom := 1
    pan := (0, 0)
    ui := UiState.new
    document := false
    current_page := 0
    total_pages := 0
    win_width := 100
    win_height := 100 }

/-- Concrete viewer state with a 2-page document open on a 100 by 100
page, used to evaluate load_page at concrete inputs. -/
def testStateDoc : State :=
  { page_tex := ⟨100, 100, fun _ => 0⟩
    overlay_buffer := ⟨40000, fun _ => 0⟩
    page_width := 100
    page_height := 100
    zoom := 1
    pan := (0, 0)
    ui := UiState.new
    document := true
    current_page := 0
    total_pages := 2
    win_width := 100
    win_height := 100 }

/-- A 200 by 100 all-zero bitmap, a page whose dimensions differ from the
one testStateDoc displays. -/
def wideBitmap : PageBitmap := ⟨200, 100, fun _ => 0⟩

/-- One wheel scroll of +1.0 line delta, scaled and clamped as the source
does. -/
def scroll1 (z : ℚ) : ℚ := zoomStep z (lineDeltaScroll 1)

/-- The zoom value after n wheel scrolls of +1.0 line delta starting from
the initial zoom 1.0. -/
def zoomAfter (n : ℕ) : ℚ := scroll1^[n] 1

/-- As long as the running total stays at most 90 scrolls, each +1.0 line
scroll adds exactly 0.1 and the clamp never engages. -/
lemma zoomAfter_eq (n : ℕ) (hn : n ≤ 90) :
    zoomAfter n = 1 + (n : ℚ) * 0.1 := by
  induction n with
  | zero => simp [zoomAfter]
  | succ k ih =>
      have hk : k ≤ 90 := by omega
      have hk89 : (k : ℚ) ≤ 89 := by exact_mod_cast (by omega : k ≤ 89)
      have hk0 : (0 : ℚ) ≤ (k : ℚ) := Nat.cast_nonneg k
      unfold zoomAfter at ih ⊢
      rw [Function.iterate_succ_apply', ih hk]
      unfold scroll1 zoomStep clampQ lineDeltaScroll
      have h1 : ¬ (1 + (k : ℚ) * 0.1 + 1 * 0.1 < 0.1) := by norm_num; linarith
      have h2 : ¬ (1 + (k : ℚ) * 0.1 + 1 * 0.1 > 10) := by norm_num; linarith
      rw [if_neg h1, if_neg h2]
      push_cast
      ring

/-- C6 counterexample: starting from zoom 1.0, 50 line-delta wheel scrolls
of +1.0 leave the zoom at 6.0, not at 10.0 as the claim states; each
scroll adds 0.1 and the clamp never engages. -/
theorem C6_fifty_scrolls_counterexample :
    zoomAfter 50 = 6 ∧ zoomAfter 50 ≠ 10 := by
  have h : zoomAfter 50 = 1 + (50 : ℚ) * 0.1 := zoomAfter_eq 50 (by omega)
  rw [h]
  norm_num

/-- C6 (amended): every single wheel update lands in [0.1, 10.0], hence so
does the zoom after any nonempty sequence of updates; and 50 line-delta
scrolls of +1.0 from zoom 1.0 leave the zoom at exactly 6.0, short of the
clamp, which engages only from the 90th scroll on. -/
theorem C6_zoom_always_clamped :
    (∀ z scroll : ℚ,
      (0.1 : ℚ) ≤ zoomStep z scroll ∧ zoomStep z scroll ≤ 10) ∧
    (∀ (z scroll : ℚ) (rest : List ℚ),
      (0.1 : ℚ) ≤ rest.foldl zoomStep (zoomStep z scroll) ∧
        rest.foldl zoomStep (zoomStep z scroll) ≤ 10) ∧
    zoomAfter 50 = 6 := by
  have hstep : ∀ z scroll : ℚ,
      (0.1 : ℚ) ≤ zoomStep z scroll ∧ zoomStep z scroll ≤ 10 := by
    intro z scroll
    unfold zoomStep clampQ
    split_ifs with h1 h2
    · constructor <;> norm_num
    · constructor <;> norm_num
    · push_neg at h1 h2
      exact ⟨h1, h2⟩
  have h50 : zoomAfter 50 = 6 := by
    have h : zoomAfter 50 = 1 + (50 : ℚ) * 0.1 := zoomAfter_eq 50 (by omega)
    rw [h]; norm_num
  refine ⟨hstep, ?_, h50⟩
  intro z scroll rest
  induction rest generalizing z scroll with
  | nil => exact hstep z scroll
  | cons d t ih =>
      rw [List.foldl_cons]
      have := ih (zoomStep z scroll) d
      simpa using this

/-- C2: a next request never advances current_page past total_pages - 1 and
a previous request never takes it below 0 (it moves down by exactly one
and only from a positive page); with no document loaded and total_pages
equal to 0 both arrow keys leave the whole state unchanged, silently. The
render oracle fails on every index at or beyond total_pages, as pdfium
page lookup does; the u16 wrap of the guard when total_pages is 0 is
modelled explicitly inside State.arrowRight. -/
theorem C2_navigation_bounds (s : State) (render : ℕ → Option PageBitmap)
    (hr : ∀ i, s.total_pages ≤ i → render i = none) :
    ((s.arrowRight render).current_page = s.current_page ∨
      ((s.arrowRight render).current_page = s.current_page + 1 ∧
        (s.arrowRight render).current_page ≤ s.total_pages - 1)) ∧
    ((s.arrowLeft render).current_page = s.current_page ∨
      (0 < s.current_page ∧
        (s.arrowLeft render).current_page = s.current_page - 1)) ∧
    (s.document = false → s.total_pages = 0 →
      s.arrowRight render = s ∧ s.arrowLeft render = s) := by
  refine ⟨?_, ?_, ?_⟩
  · unfold State.arrowRight
    split
    · unfold State.load_page
      cases hdoc : s.document with
      | false => simp
      | true =>
          simp only [hdoc, if_true]
          cases hrender : render (s.current_page + 1) with
          | none => simp
          | some bmp =>
              right
              have hlt : s.current_page + 1 < s.total_pages := by
                by_contra hc
                push_neg at hc
                rw [hr _ hc] at hrender
                exact Option.noConfusion hrender
              refine ⟨rfl, ?_⟩
              show s.current_page + 1 ≤ s.total_pages - 1
              omega
    · left; rfl
  · unfold State.arrowLeft
    split
    · rename_i hpos
      unfold State.load_page
      cases hdoc : s.document with
      | false => simp
      | true =>
          simp only [hdoc, if_true]
          cases hrender : render (s.current_page - 1) with
          | none => simp
          | some bmp => exact Or.inr ⟨hpos, rfl⟩
    · left; rfl
  · intro hdoc htot
    constructor
    · unfold State.arrowRight State.load_page
      rw [hdoc]
      simp
    · unfold State.arrowLeft State.load_page
      rw [hdoc]
      simp

/-- C2 witness: in the concrete no-document state with total_pages 0, both
arrow keys leave the state unchanged. -/
theorem C2_navigation_bounds_witness :
    testState.arrowRight (fun _ => none) = testState ∧
    testState.arrowLeft (fun _ => none) = testState :=
  (C2_navigation_bounds testState (fun _ => none)
    (fun _ _ => rfl)).2.2 rfl rfl

/-- C8: a navigation or page-load whose rasterization fails leaves the
whole viewer state unchanged: current_page, page dimensions, the overlay
buffer and the page texture are all as before, so navigation is atomic. -/
theorem C8_failed_load_atomic (s : State) (render : ℕ → Option PageBitmap) :
    (render (s.current_page + 1) = none → s.arrowRight render = s) ∧
    (render (s.current_page - 1) = none → s.arrowLeft render = s) ∧
    (∀ idx, render idx = none → s.load_page render idx = s) := by
  have hload : ∀ idx, render idx = none → s.load_page render idx = s := by
    intro idx hidx
    unfold State.load_page
    rw [hidx]
    split <;> rfl
  refine ⟨?_, ?_, hload⟩
  · intro hidx
    unfold State.arrowRight
    split
    · exact hload _ hidx
    · rfl
  · intro hidx
    unfold State.arrowLeft
    split
    · exact hload _ hidx
    · rfl

/-- C8 witness: with an oracle that always fails, loading page 1 in the
concrete document state changes nothing. -/
theorem C8_failed_load_atomic_witness :
    testStateDoc.load_page (fun _ => none) 1 = testStateDoc :=
  (C8_failed_load_atomic testStateDoc (fun _ => none)).2.2 1 rfl

/-- C9: for a pointer press at screen pixel (px, py) in a positive
viewport, fed to hit_test through the NDC conversion the input handler
applies, a press inside the bottom bar band of height 80 is always
consumed, even outside every button zone; a press outside the bar with the
side panel closed, or at or beyond the 200 pixel panel width, is not
consumed. -/
theorem C9_hit_test_consumption (ui : UiState) (px py w h : ℚ)
    (hw : 0 < w) (hh : 0 < h)
    (hbar : ui.bottom_bar_height = 80) (hpanel : ui.side_panel_width = 200) :
    (h - 80 < py →
      (ui.hit_test ((px / w) * 2 - 1) (-((py / h) * 2 - 1)) w h).2 = true) ∧
    (py ≤ h - 80 → (ui.is_carousel_open = false ∨ 200 ≤ px) →
      (ui.hit_test ((px / w) * 2 - 1) (-((py / h) * 2 - 1)) w h).2 = false) := by
  have hpx : (((px / w) * 2 - 1) + 1) * 0.5 * w = px := by
    field_simp
    ring
  have hpy : (1 - (-((py / h) * 2 - 1))) * 0.5 * h = py := by
    field_simp
    ring
  unfold UiState.hit_test
  rw [hpx, hpy, hbar, hpanel]
  constructor
  · intro hband
    rw [if_pos (by linarith : h - 80 < py)]
    dsimp only
    split_ifs <;> rfl
  · intro hband hside
    rw [if_neg (by linarith : ¬ h - 80 < py)]
    rw [if_neg]
    rintro ⟨hopen, hlt⟩
    rcases hside with hclosed | hbeyond
    · rw [hclosed] at hopen
      exact Bool.noConfusion hopen
    · linarith

/-- C9 witness: in the fresh UI at viewport 1200 by 800, a press at pixel
(600, 790) lies in the bottom bar band and is consumed. -/
theorem C9_hit_test_consumption_witness :
    (UiState.new.hit_test ((600 / 1200 : ℚ) * 2 - 1)
      (-(((790 : ℚ) / 800) * 2 - 1)) 1200 800).2 = true :=
  (C9_hit_test_consumption UiState.new 600 790 1200 800
    (by norm_num) (by norm_num) rfl rfl).1 (by norm_num)

/-- The UI states reachable from UiState.new through hit_test calls, the
only place the source ever mutates the active tool. -/
inductive ReachableUi : UiState → Prop
  | init : ReachableUi UiState.new
  | step (ui : UiState) (x y w h : ℚ) :
      ReachableUi ui → ReachableUi (ui.hit_test x y w h).1

/-- C10: in every reachable UI state the active tool is Pan or Highlighter,
never the declared Tool.None variant, and applying the toolbar toggle
twice restores the tool. -/
theorem C10_no_none_tool (ui : UiState) (hr : ReachableUi ui) :
    ui.active_tool ≠ Tool.None ∧
    toggleTool (toggleTool ui.active_tool) = ui.active_tool := by
  have key : ui.active_tool = Tool.Pan ∨ ui.active_tool = Tool.Highlighter := by
    induction hr with
    | init => exact Or.inl rfl
    | step ui x y w h hr ih =>
        unfold UiState.hit_test
        dsimp only
        split_ifs <;>
          first
            | exact ih
            | rcases ih with hp | hp <;> simp [toggleTool, hp]
  rcases key with hp | hp <;> rw [hp] <;>
    exact ⟨by simp, by simp [toggleTool]⟩

/-- C10 witness: the initial state is reachable, its tool is not Tool.None
and double toggling restores it. -/
theorem C10_no_none_tool_witness :
    UiState.new.active_tool ≠ Tool.None ∧
    toggleTool (toggleTool UiState.new.active_tool) = UiState.new.active_tool :=
  C10_no_none_tool UiState.new ReachableUi.init

/-- C3: for every zoom in the clamp range, every pan and every positive
viewport, the inverse transform paint_overlay applies is the exact
algebraic inverse of the forward camera map built from the uniform of
State.update: composing in either order is the identity. -/
theorem C3_camera_transform_inverse (zoom panx pany : ℚ) (w h : ℕ)
    (x y xc yc : ℚ) (hz1 : (0.1 : ℚ) ≤ zoom) (hz2 : zoom ≤ 10)
    (hw : 0 < w) (hh : 0 < h) :
    ndcToCamera (forwardCamera xc yc zoom panx pany (aspectOf w h)).1
      (forwardCamera xc yc zoom panx pany (aspectOf w h)).2
      zoom panx pany (aspectOf w h) = (xc, yc) ∧
    forwardCamera (ndcToCamera x y zoom panx pany (aspectOf w h)).1
      (ndcToCamera x y zoom panx pany (aspectOf w h)).2
      zoom panx pany (aspectOf w h) = (x, y) := by
  have hz : zoom ≠ 0 := by
    have : (0 : ℚ) < zoom := lt_of_lt_of_le (by norm_num) hz1
    exact ne_of_gt this
  have hwq : (w : ℚ) ≠ 0 := Nat.cast_ne_zero.mpr hw.ne'
  have hhq : (h : ℚ) ≠ 0 := Nat.cast_ne_zero.mpr hh.ne'
  have ha : aspectOf w h ≠ 0 := div_ne_zero hwq hhq
  unfold ndcToCamera forwardCamera cameraScale
  constructor <;> (rw [Prod.mk.injEq]; dsimp only; constructor) <;>
    field_simp

/-- C3 witness: at zoom 1, pan (2, 3), viewport 1200 by 800, the round
trips at the sample points come back exactly. -/
theorem C3_camera_transform_inverse_witness :
    ndcToCamera (forwardCamera (1/3) (1/7) 1 2 3 (aspectOf 1200 800)).1
      (forwardCamera (1/3) (1/7) 1 2 3 (aspectOf 1200 800)).2
      1 2 3 (aspectOf 1200 800) = (1/3, 1/7) ∧
    forwardCamera (ndcToCamera (1/2) (1/5) 1 2 3 (aspectOf 1200 800)).1
      (ndcToCamera (1/2) (1/5) 1 2 3 (aspectOf 1200 800)).2
      1 2 3 (aspectOf 1200 800) = (1/2, 1/5) :=
  C3_camera_transform_inverse 1 2 3 1200 800 (1/2) (1/5) (1/3) (1/7)
    (by norm_num) (by norm_num) (by norm_num) (by norm_num)

/-- The full screen-to-texel chain of the claim, applied to the screen
pixel at the exact view centre with zoom 1 and pan (0, 0): the CursorMoved
normalisation followed by the inverse camera, UV and texel steps of
paint_overlay. -/
def composedCenterTexel (w h pw ph : ℕ) : ℤ × ℤ :=
  let ndc := screenToNdc ((w : ℚ) / 2) ((h : ℚ) / 2) (w : ℚ) (h : ℚ)
  let cam := ndcToCamera ndc.1 ndc.2 1 0 0 (aspectOf w h)
  let uv := cameraToUv cam.1 cam.2
  uvToTexel uv.1 uv.2 pw ph

/-- C4: for every positive even viewport and every positive page, the
composed chain applied to the view centre pixel at zoom 1, pan (0, 0)
lands within one texel of the page centre (pw / 2, ph / 2). -/
theorem C4_center_pixel_chain (w h pw ph : ℕ)
    (hw : 0 < w) (hh : 0 < h) (hpw : 0 < pw) (hph : 0 < ph)
    (hew : 2 ∣ w) (heh : 2 ∣ h) :
    |((composedCenterTexel w h pw ph).1 : ℚ) - (pw : ℚ) / 2| ≤ 1 ∧
    |((composedCenterTexel w h pw ph).2 : ℚ) - (ph : ℚ) / 2| ≤ 1 := by
  have hwq : (w : ℚ) ≠ 0 := Nat.cast_ne_zero.mpr hw.ne'
  have hhq : (h : ℚ) ≠ 0 := Nat.cast_ne_zero.mpr hh.ne'
  have hndc : screenToNdc ((w : ℚ) / 2) ((h : ℚ) / 2) (w : ℚ) (h : ℚ) = (0, 0) := by
    unfold screenToNdc
    rw [Prod.mk.injEq]
    constructor <;> (field_simp; ring)
  have hcam : ndcToCamera 0 0 1 0 0 (aspectOf w h) = (0, 0) := by
    unfold ndcToCamera
    rw [Prod.mk.injEq]
    constructor <;> simp
  have huv : cameraToUv 0 0 = (1/2, 1/2) := by
    unfold cameraToUv
    norm_num
  have hchain : composedCenterTexel w h pw ph =
      (ratTrunc ((1/2 : ℚ) * (pw : ℚ)), ratTrunc ((1/2 : ℚ) * (ph : ℚ))) := by
    unfold composedCenterTexel
    rw [hndc]
    dsimp only
    rw [hcam]
    dsimp only
    rw [huv]
    unfold uvToTexel
    rfl
  have htr : ∀ n : ℕ, 0 < n → |((ratTrunc ((1/2 : ℚ) * (n : ℚ))) : ℚ) - (n : ℚ) / 2| ≤ 1 := by
    intro n hn
    have hnn : (0 : ℚ) ≤ (1/2 : ℚ) * (n : ℚ) := by positivity
    unfold ratTrunc
    rw [if_pos hnn]
    have h1 := Int.floor_le ((1/2 : ℚ) * (n : ℚ))
    have h2 := Int.lt_floor_add_one ((1/2 : ℚ) * (n : ℚ))
    rw [abs_le]
    constructor <;> linarith
  rw [hchain]
  exact ⟨htr pw hpw, htr ph hph⟩

/-- C4 witness: at viewport 1200 by 800 on a 100 by 100 page the chain
lands within one texel of (50, 50). -/
theorem C4_center_pixel_chain_witness :
    |((composedCenterTexel 1200 800 100 100).1 : ℚ) - (100 : ℚ) / 2| ≤ 1 ∧
    |((composedCenterTexel 1200 800 100 100).2 : ℚ) - (100 : ℚ) / 2| ≤ 1 :=
  C4_center_pixel_chain 1200 800 100 100 (by norm_num) (by norm_num)
    (by norm_num) (by norm_num) (by norm_num) (by norm_num)

/-- The all-zero overlay buffer of a freshly loaded 100 by 100 page. -/
def zeroBuf100 : OverlayBuffer := ⟨40000, fun _ => 0⟩

set_option maxRecDepth 8000

/-- C5: a buffer pixel at offset (dx, dy) from the stamp centre that lies
inside the buffer bounds is written iff dx * dx + dy * dy is at most 25,
and every written byte holds the fixed colour (255, 255, 0, 100); in
particular stamping at texel (50, 50) of a zeroed 100 by 100 overlay sets
the four bytes of pixel (50, 50) to that colour and leaves the four bytes
of pixel (50, 70) at zero. -/
theorem C5_disc_stamp :
    (∀ (w h : ℕ) (tx ty dx dy : ℤ) (buf : OverlayBuffer) (k : ℕ),
      k < 4 → 0 ≤ tx + dx → tx + dx < (w : ℤ) →
      0 ≤ ty + dy → ty + dy < (h : ℤ) →
      (paintDisc w h tx ty buf).data
          (((ty + dy).toNat * w + (tx + dx).toNat) * 4 + k) =
        if dx * dx + dy * dy ≤ 25 then colorByte k
        else buf.data (((ty + dy).toNat * w + (tx + dx).toNat) * 4 + k)) ∧
    ((paintDisc 100 100 50 50 zeroBuf100).data 20200 = 255 ∧
     (paintDisc 100 100 50 50 zeroBuf100).data 20201 = 255 ∧
     (paintDisc 100 100 50 50 zeroBuf100).data 20202 = 0 ∧
     (paintDisc 100 100 50 50 zeroBuf100).data 20203 = 100) ∧
    ((paintDisc 100 100 50 50 zeroBuf100).data 28200 = 0 ∧
     (paintDisc 100 100 50 50 zeroBuf100).data 28201 = 0 ∧
     (paintDisc 100 100 50 50 zeroBuf100).data 28202 = 0 ∧
     (paintDisc 100 100 50 50 zeroBuf100).data 28203 = 0) := by
  have hgen : ∀ (w h : ℕ) (tx ty dx dy : ℤ) (buf : OverlayBuffer) (k : ℕ),
      k < 4 → 0 ≤ tx + dx → tx + dx < (w : ℤ) →
      0 ≤ ty + dy → ty + dy < (h : ℤ) →
      (paintDisc w h tx ty buf).data
          (((ty + dy).toNat * w + (tx + dx).toNat) * 4 + k) =
        if dx * dx + dy * dy ≤ 25 then colorByte k
        else buf.data (((ty + dy).toNat * w + (tx + dx).toNat) * 4 + k) := by
    intro w h tx ty dx dy buf k hk hx0 hx1 hy0 hy1
    unfold paintDisc
    rw [paintFold_data]
    have hmod : ((((ty + dy).toNat * w + (tx + dx).toNat) * 4 + k) % 4) = k := by
      omega
    rw [hmod]
    simp only [exists_writesAt_iff w h tx ty dx dy k hk hx0 hx1 hy0 hy1]
  refine ⟨hgen, ?_, ?_⟩
  · have h0 := hgen 100 100 50 50 0 0 zeroBuf100 0
      (by norm_num) (by norm_num) (by norm_num) (by norm_num) (by norm_num)
    have h1 := hgen 100 100 50 50 0 0 zeroBuf100 1
      (by norm_num) (by norm_num) (by norm_num) (by norm_num) (by norm_num)
    have h2 := hgen 100 100 50 50 0 0 zeroBuf100 2
      (by norm_num) (by norm_num) (by norm_num) (by norm_num) (by norm_num)
    have h3 := hgen 100 100 50 50 0 0 zeroBuf100 3
      (by norm_num) (by norm_num) (by norm_num) (by norm_num) (by norm_num)
    norm_num [colorByte] at h0 h1 h2 h3
    exact ⟨h0, h1, h2, h3⟩
  · have h0 := hgen 100 100 50 50 0 20 zeroBuf100 0
      (by norm_num) (by norm_num) (by norm_num) (by norm_num) (by norm_num)
    have h1 := hgen 100 100 50 50 0 20 zeroBuf100 1
      (by norm_num) (by norm_num) (by norm_num) (by norm_num) (by norm_num)
    have h2 := hgen 100 100 50 50 0 20 zeroBuf100 2
      (by norm_num) (by norm_num) (by norm_num) (by norm_num) (by norm_num)
    have h3 := hgen 100 100 50 50 0 20 zeroBuf100 3
      (by norm_num) (by norm_num) (by norm_num) (by norm_num) (by norm_num)
    norm_num [zeroBuf100] at h0 h1 h2 h3
    exact ⟨h0, h1, h2, h3⟩

/-- C5 witness: the centre pixel byte of the concrete stamp, through the
general characterisation at dx = dy = 0, k = 0. -/
theorem C5_disc_stamp_witness :
    (paintDisc 100 100 50 50 zeroBuf100).data 20200 = 255 := by
  have h := C5_disc_stamp.1 100 100 50 50 0 0 zeroBuf100 0
    (by norm_num) (by norm_num) (by norm_num) (by norm_num) (by norm_num)
  norm_num [colorByte] at h
  exact h

/-- C7: an NDC point whose UV coordinates fall outside the unit square
leaves the whole state unchanged, and even for an in-range point every
byte the stamp changes belongs to a pixel inside the buffer bounds, so
out-of-bounds disc pixels are skipped without modifying anything. -/
theorem C7_offpage_paint_noop (s : State) (x y : ℚ) :
    (¬ (0 ≤ (s.paintUV x y).1 ∧ (s.paintUV x y).1 ≤ 1 ∧
        0 ≤ (s.paintUV x y).2 ∧ (s.paintUV x y).2 ≤ 1) →
      s.paint_overlay x y = s) ∧
    (∀ i, (s.paint_overlay x y).overlay_buffer.data i ≠ s.overlay_buffer.data i →
      ∃ px py : ℕ, px < s.page_width ∧ py < s.page_height ∧
        (py * s.page_width + px) * 4 ≤ i ∧ i < (py * s.page_width + px) * 4 + 4) := by
  constructor
  · intro hout
    unfold State.paint_overlay
    dsimp only
    rw [if_neg hout]
  · intro i hne
    unfold State.paint_overlay at hne
    dsimp only at hne
    by_cases hin : 0 ≤ (s.paintUV x y).1 ∧ (s.paintUV x y).1 ≤ 1 ∧
        0 ≤ (s.paintUV x y).2 ∧ (s.paintUV x y).2 ≤ 1
    · rw [if_pos hin] at hne
      dsimp only at hne
      unfold paintDisc at hne
      rw [paintFold_data] at hne
      by_cases hex : ∃ o ∈ discOffsets 5,
          writesAt s.page_width s.page_height
            (uvToTexel (s.paintUV x y).1 (s.paintUV x y).2
              s.page_width s.page_height).1
            (uvToTexel (s.paintUV x y).1 (s.paintUV x y).2
              s.page_width s.page_height).2 o i
      · obtain ⟨o, hmem, hwr⟩ := hex
        obtain ⟨-, h1, h2, h3, h4, h5, h6⟩ := hwr
        refine ⟨((uvToTexel (s.paintUV x y).1 (s.paintUV x y).2
            s.page_width s.page_height).1 + o.1).toNat,
          ((uvToTexel (s.paintUV x y).1 (s.paintUV x y).2
            s.page_width s.page_height).2 + o.2).toNat, ?_, ?_, ?_, ?_⟩ <;>
          omega
      · rw [if_neg hex] at hne
        exact absurd rfl hne
    · rw [if_neg hin] at hne
      exact absurd rfl hne

/-- C7 witness: at the no-document test state the NDC point (5, 0) maps to
u = 3, off the page, and painting there changes nothing. -/
theorem C7_offpage_paint_noop_witness :
    testState.paint_overlay 5 0 = testState :=
  (C7_offpage_paint_noop testState 5 0).1 (by
    norm_num [State.paintUV, ndcToCamera, cameraToUv, aspectOf, testState])

/-- C1: evaluation of load_page at a failing input. In the concrete
document state showing a 100 by 100 page (overlay length 40000), loading a
page whose bitmap is 200 by 100 leaves the overlay buffer at length 40000
while the updated dimensions demand 200 * 100 * 4 = 80000 bytes: load_page
zeroes the overlay but never reallocates it, so the claimed length
invariant breaks on any page whose dimensions differ. -/
theorem C1_overlay_length_bug :
    (testStateDoc.load_page (fun _ => some wideBitmap) 1).overlay_buffer.len
        = 40000 ∧
    (testStateDoc.load_page (fun _ => some wideBitmap) 1).page_width *
        (testStateDoc.load_page (fun _ => some wideBitmap) 1).page_height * 4
        = 80000 ∧
    (testStateDoc.load_page (fun _ => some wideBitmap) 1).overlay_buffer.len ≠
      (testStateDoc.load_page (fun _ => some wideBitmap) 1).page_width *
        (testStateDoc.load_page (fun _ => some wideBitmap) 1).page_height * 4 ∧
    (testStateDoc.load_page (fun _ => some wideBitmap) 1).overlay_buffer.data 0
        = 0 ∧
    (testStateDoc.load_page (fun _ => some wideBitmap) 1).overlay_buffer.data
        20200 = 0 := by
  exact ⟨rfl, rfl, by decide, rfl, rfl⟩

end WindP
